import Mathlib

/-!
Verification of the free-list allocator in
`src/memory_management/reference_counting_gc/include/object_module.h`
(template class `FreeListAllocator<ONE_MEM_POOL_SIZE>` with its nested
`FreeListMemoryPool`).

The embedding is a shallow one over a byte-addressed memory model:

* `Mem` is a function from byte addresses (natural numbers) to byte values;
  8-byte little-endian words model `size_t` and pointer fields.
* Pointers are modelled as natural numbers below `2 ^ 64`; `0` is `nullptr`
  (which is also the pool's `OCCUPIED_BLOCK` sentinel).
* `size_t` arithmetic wraps modulo `2 ^ 64`; `wadd`, `wsub`, `wmul` perform
  the wrapped operations.
* A pool is identified by the base address of its mapped region.  Its two
  data members live inside that region exactly as in the C++ object layout:
  `nextPool` occupies bytes `[base, base + 8)` and `freeListHead_` occupies
  bytes `[base + 8, base + 16)`.  `sizeof(Block) = 16` (`next` at offset 0,
  `size` at offset 8) and `sizeof(FreeListMemoryPool) = 16`.
* The C++ `while` loops are modelled with an explicit fuel argument; `none`
  means the fuel was exhausted (or, for `FreeListAllocator.Free`, that the
  walk invoked a member function through a null pool pointer, which is
  undefined behaviour in the source).
-/

namespace FreeListAlloc

/-- Modulus of 64-bit `size_t` and pointer arithmetic. -/
def W : Nat := 2 ^ 64

/-- Byte-addressed memory: a map from byte address to stored byte. -/
def Mem : Type := Nat → Nat

/-- All-zero memory.  A fresh `MAP_ANONYMOUS` mapping is zero-filled, so the
region backing a pool produced by `CreateNewPool` reads as `zeroMem`. -/
def zeroMem : Mem := fun _ => 0

/-- Read one byte (values are normalised into `[0, 256)`). -/
def readByte (m : Mem) (a : Nat) : Nat := m a % 256

/-- Store one byte. -/
def writeByte (m : Mem) (a v : Nat) : Mem := fun x => if x = a then v % 256 else m x

/-- Little-endian read of an 8-byte word (a `size_t` or pointer field). -/
def readWord (m : Mem) (a : Nat) : Nat :=
  readByte m a +
    256 * (readByte m (a + 1) +
      256 * (readByte m (a + 2) +
        256 * (readByte m (a + 3) +
          256 * (readByte m (a + 4) +
            256 * (readByte m (a + 5) +
              256 * (readByte m (a + 6) +
                256 * readByte m (a + 7)))))))

/-- Little-endian store of an 8-byte word. -/
def writeWord (m : Mem) (a v : Nat) : Mem :=
  writeByte (writeByte (writeByte (writeByte (writeByte (writeByte (writeByte (writeByte
    m a v)
    (a + 1) (v / 256 ^ 1))
    (a + 2) (v / 256 ^ 2))
    (a + 3) (v / 256 ^ 3))
    (a + 4) (v / 256 ^ 4))
    (a + 5) (v / 256 ^ 5))
    (a + 6) (v / 256 ^ 6))
    (a + 7) (v / 256 ^ 7)

/-- Wrapped 64-bit addition (`size_t` / pointer addition). -/
def wadd (a b : Nat) : Nat := (a + b) % W

/-- Wrapped 64-bit subtraction (`size_t` subtraction; underflows wrap). -/
def wsub (a b : Nat) : Nat := (a + (W - b % W)) % W

/-- Wrapped 64-bit multiplication. -/
def wmul (a b : Nat) : Nat := (a * b) % W

/-- Size in bytes of `FreeListMemoryPool::Block` (`Block *next; size_t size`). -/
def sizeofBlock : Nat := 16

/-- Size in bytes of `FreeListMemoryPool` itself
(`FreeListMemoryPool *nextPool; Block *freeListHead_`). -/
def sizeofPool : Nat := 16

/-- Embedding of `FreeListAllocator::CalculateCapacity`.  `ps` is the value
returned by `getpagesize()` and `cs` the `ONE_MEM_POOL_SIZE` template
argument.  The source computes
`size_t cap = psize * (1 + ONE_MEM_POOL_SIZE / psize);` and subtracts one
page when the configured size is an exact multiple of the page size. -/
def CalculateCapacity (ps cs : Nat) : Nat :=
  let cap := wmul ps (wadd 1 (cs / ps))
  if cs % ps = 0 then wsub cap ps else cap

namespace FreeListMemoryPool

/-- Embedding of the free-list walk in `FreeListMemoryPool::Allocate`:
`while (block && block->size + sizeof(Block) < size) { prevBlock = block;
block = block->next; }`.  `prevBlock`/`block` are pointer values (`0` is
null).  The result is `some (prevBlock, block)` once the loop condition
fails (`block = 0` when the list was exhausted), `none` if the fuel ran out
first. -/
def FindFitLoop (m : Mem) (size : Nat) : Nat → Nat → Nat → Option (Nat × Nat)
  | 0, _, _ => none
  | fuel + 1, prevBlock, block =>
    if block = 0 then some (prevBlock, 0)
    else if wadd (readWord m (wadd block 8)) sizeofBlock < size then
      FindFitLoop m size fuel block (readWord m block)
    else some (prevBlock, block)

/-- Embedding of `FreeListMemoryPool::Allocate`.  `base` is the address of
the pool object (the start of its mapped region); the member
`freeListHead_` is read from bytes `[base + 8, base + 16)`.  Returns
`some (m, p)` where `p` is the returned `char *` (`0` for `nullptr`), or
`none` when the walk's fuel ran out.  Every memory access follows the
source order: the split branch re-reads `block->size` and `block->next`
from the current memory, `if (freeListHead_ == block)` re-reads the member
after the earlier stores, and finally the consumed block's `next` is set to
`OCCUPIED_BLOCK` (null, i.e. `0`) and its `size` to `size + sizeof(Block)`. -/
def Allocate (m : Mem) (base size fuel : Nat) : Option (Mem × Nat) :=
  match FindFitLoop m size fuel 0 (readWord m (wadd base 8)) with
  | none => none
  | some (prevBlock, block) =>
    if block = 0 then some (m, 0)
    else
      let allocated := wadd block sizeofBlock
      let nextFreeBlock := readWord m block
      let split := readWord m (wadd block 8) < wadd size sizeofBlock
      let nfbAddr := wadd allocated size
      let m1 := if split then
          writeWord m (wadd nfbAddr 8) (wsub (wsub (readWord m (wadd block 8)) size) sizeofBlock)
        else m
      let m2 := if split then writeWord m1 nfbAddr (readWord m1 block) else m1
      let nfb := if split then nfbAddr else nextFreeBlock
      let m3 := if prevBlock ≠ 0 then writeWord m2 prevBlock nfb else m2
      let m4 := if readWord m3 (wadd base 8) = block then writeWord m3 (wadd base 8) nfb else m3
      let m5 := writeWord m4 block 0
      let m6 := writeWord m5 (wadd block 8) (wadd size sizeofBlock)
      some (m6, allocated)

/-- Embedding of `FreeListMemoryPool::VerifyPtr`: false for null; false when
the word at `ptr` (read as `block->next`) differs from the
`OCCUPIED_BLOCK` sentinel (null); otherwise an address-range check
`this <= ptr && (char *)ptr + sizeof(Block) < (char *)this + CalculateCapacity()`. -/
def VerifyPtr (ps cs : Nat) (m : Mem) (base ptr : Nat) : Bool :=
  if ptr = 0 then false
  else if readWord m ptr ≠ 0 then false
  else decide (base ≤ ptr) && decide (wadd ptr sizeofBlock < wadd base (CalculateCapacity ps cs))

/-- Embedding of `FreeListMemoryPool::Free`: no-op on null or when
`VerifyPtr` fails; otherwise the block at `ptr` is pushed onto the free
list (`block->next = freeListHead_; freeListHead_ = block;`).  Note the
source reinterprets the user pointer itself as the `Block`, without
stepping back over the header. -/
def Free (ps cs : Nat) (m : Mem) (base ptr : Nat) : Mem :=
  if ptr = 0 then m
  else if ¬ VerifyPtr ps cs m base ptr then m
  else
    let m1 := writeWord m ptr (readWord m (wadd base 8))
    writeWord m1 (wadd base 8) ptr

/-- Embedding of the `FreeListMemoryPool` constructor.  The member
initialisers set `nextPool = nullptr` and
`freeListHead_ = reinterpret_cast<Block *>(this + sizeof(FreeListMemoryPool))`;
since `this` has type `FreeListMemoryPool *`, `this + 16` advances by
`16 * sizeof(FreeListMemoryPool) = 256` bytes.  The body then stores
`freeListHead_->size = CalculateCapacity() - sizeof(FreeListMemoryPool)`
and `freeListHead_->next = freeListHead_ + 1` (one `Block`, 16 bytes,
past the head). -/
def Ctor (ps cs : Nat) (m : Mem) (base : Nat) : Mem :=
  let m1 := writeWord m base 0
  let flh := wadd base (sizeofPool * sizeofPool)
  let m2 := writeWord m1 (wadd base 8) flh
  let m3 := writeWord m2 (wadd flh 8) (wsub (CalculateCapacity ps cs) sizeofPool)
  writeWord m3 flh (wadd flh sizeofBlock)

end FreeListMemoryPool

namespace FreeListAllocator

/-- Embedding of the retry loop in `FreeListAllocator::Allocate`.  State:
current memory `m`, the pool whose `Allocate` produced the current
`allocated` value, the count `fresh` of growth pools created so far, and
`allocated` itself.  `supply fresh` is the base address of the next region
returned by `CreateNewPool` (mmap of a fresh zero page run); `pfuel` is
the fuel handed to each pool-level free-list walk.  One recursion step is
one iteration of `while (allocated == nullptr)`: advance to
`pool->nextPool`, create and link a new pool when that is null, and retry
`pool->Allocate(size)` there. -/
def AllocateLoop (supply : Nat → Nat) (size pfuel : Nat) :
    Nat → Mem → Nat → Nat → Nat → Option (Mem × Nat × Nat)
  | 0, _, _, _, _ => none
  | fuel + 1, m, pool, fresh, allocated =>
    if allocated ≠ 0 then some (m, allocated, fresh)
    else
      let next := readWord m pool
      let pool2 := if next = 0 then supply fresh else next
      let m1 := if next = 0 then writeWord m pool (supply fresh) else m
      let fresh1 := if next = 0 then fresh + 1 else fresh
      match FreeListMemoryPool.Allocate m1 pool2 size pfuel with
      | none => none
      | some (m2, a) => AllocateLoop supply size pfuel fuel m2 pool2 fresh1 a

/-- Embedding of `FreeListAllocator::Allocate<T>(count)`:
`size = count * sizeof(T)` (wrapped 64-bit product, with `eltSize`
standing for `sizeof(T)`), a first `firstPool_->Allocate(size)`, then the
retry loop.  There is no special handling of `count = 0` or `size = 0` in
the source. -/
def Allocate (supply : Nat → Nat) (m : Mem) (firstPool fresh count eltSize pfuel fuel : Nat) :
    Option (Mem × Nat × Nat) :=
  let size := wmul count eltSize
  match FreeListMemoryPool.Allocate m firstPool size pfuel with
  | none => none
  | some (m1, a) => AllocateLoop supply size pfuel fuel m1 firstPool fresh a

/-- Embedding of `FreeListAllocator::Free`: `pool` starts at `firstPool_`;
each iteration first advances `pool = pool->nextPool` and only then calls
`pool->VerifyPtr(ptr)`.  When the advanced `pool` is null that call goes
through a null object pointer — undefined behaviour in the source —
modelled here as a fault (`none`).  On a successful verify the pool's
`Free` runs and the loop breaks. -/
def Free (ps cs : Nat) : Nat → Mem → Nat → Nat → Option Mem
  | 0, _, _, _ => none
  | fuel + 1, m, pool, ptr =>
    if pool = 0 then some m
    else
      let pool1 := readWord m pool
      if pool1 = 0 then none
      else if FreeListMemoryPool.VerifyPtr ps cs m pool1 ptr then
        some (FreeListMemoryPool.Free ps cs m pool1 ptr)
      else Free ps cs fuel m pool1 ptr

end FreeListAllocator

/-- First component (the returned memory) of a pool `Allocate` result;
`zeroMem` for the fuel-exhausted case. -/
def resMem : Option (Mem × Nat) → Mem
  | some (m, _) => m
  | none => zeroMem

/-- Second component (the returned pointer) of a pool `Allocate` result;
`0` for the fuel-exhausted case. -/
def resPtr : Option (Mem × Nat) → Nat
  | some (_, p) => p
  | none => 0

/-- Returned pointer of an allocator-level `Allocate` result. -/
def resPtr3 : Option (Mem × Nat × Nat) → Nat
  | some (_, p, _) => p
  | none => 0

/-- Pool-address supply used in the divergence argument for the
allocator-level `Allocate`: the allocator's first pool sits at `4096` and
the `k`-th region handed out by `CreateNewPool` afterwards starts at
`4096 * (k + 2)` (fresh anonymous zero-filled pages, one page apart). -/
def poolSupply : Nat → Nat := fun k => 4096 * (k + 2)

/-- Test memory: one pool at base `4096` (page size 4096, configured pool
size 4096, hence capacity 4096) whose member `freeListHead_` points at a
single free block at `4112` of size `100` with a null `next`. -/
def mPool100 : Mem := writeWord (writeWord zeroMem 4104 4112) 4120 100

/-- Same layout as `mPool100` but the single free block has size `20`. -/
def mPool20 : Mem := writeWord (writeWord zeroMem 4104 4112) 4120 20

/-- Test memory: the pool at `4096` has free-list head `4112`, and the free
block at `4112` has a null `next` (it is the only free block), as after a
first `Free` onto an empty list. -/
def mFreeHead : Mem := writeWord zeroMem 4104 4112

/-- A free list read from memory: `isChain m h [a1, ..., an]` states that
the pool's head value `h` is `a1`, each listed block is non-null, each
block's `next` field is the following list entry, and the last `next` is
null. -/
def isChain (m : Mem) : Nat → List Nat → Bool
  | h, [] => h == 0
  | h, a :: rest => h == a && decide (a ≠ 0) && isChain m (readWord m a) rest

/-- The fit test of the claim, as a `find?` predicate: a free block fits
the request `req` exactly when its `size` field plus the header size is
at least `req`. -/
def fitsReq (m : Mem) (req a : Nat) : Bool :=
  decide (req ≤ readWord m (wadd a 8) + sizeofBlock)

theorem writeByte_apply_ne (m : Mem) (a v x : Nat) (h : x ≠ a) :
    writeByte m a v x = m x := if_neg h

theorem writeWord_apply_of_notin (m : Mem) (a v x : Nat) (h : x < a ∨ a + 8 ≤ x) :
    writeWord m a v x = m x := by
  unfold writeWord
  rw [writeByte_apply_ne _ _ _ _ (by omega), writeByte_apply_ne _ _ _ _ (by omega),
    writeByte_apply_ne _ _ _ _ (by omega), writeByte_apply_ne _ _ _ _ (by omega),
    writeByte_apply_ne _ _ _ _ (by omega), writeByte_apply_ne _ _ _ _ (by omega),
    writeByte_apply_ne _ _ _ _ (by omega), writeByte_apply_ne _ _ _ _ (by omega)]

theorem readWord_writeWord_of_disjoint (m : Mem) (a b v : Nat)
    (h : b + 8 ≤ a ∨ a + 8 ≤ b) :
    readWord (writeWord m a v) b = readWord m b := by
  unfold readWord readByte
  rw [writeWord_apply_of_notin m a v b (by omega),
    writeWord_apply_of_notin m a v (b + 1) (by omega),
    writeWord_apply_of_notin m a v (b + 2) (by omega),
    writeWord_apply_of_notin m a v (b + 3) (by omega),
    writeWord_apply_of_notin m a v (b + 4) (by omega),
    writeWord_apply_of_notin m a v (b + 5) (by omega),
    writeWord_apply_of_notin m a v (b + 6) (by omega),
    writeWord_apply_of_notin m a v (b + 7) (by omega)]

/-- Normal form of `CalculateCapacity` when the page-rounded size does not
overflow 64-bit arithmetic. -/
theorem CalculateCapacity_eq (ps cs : Nat) (hps : 0 < ps)
    (hnof : ps * (1 + cs / ps) < W) :
    CalculateCapacity ps cs = if cs % ps = 0 then cs else ps * (1 + cs / ps) := by
  have h1q : 1 + cs / ps < W := lt_of_le_of_lt (Nat.le_mul_of_pos_left (1 + cs / ps) hps) hnof
  have hpslt : ps < W :=
    lt_of_le_of_lt (Nat.le_mul_of_pos_right ps (Nat.le_add_right 1 (cs / ps))) hnof
  have hdm := Nat.div_add_mod cs ps
  simp only [CalculateCapacity, wmul, wadd, wsub, Nat.mod_eq_of_lt h1q, Nat.mod_eq_of_lt hnof,
    Nat.mod_eq_of_lt hpslt]
  have hX : ps * (1 + cs / ps) = ps + ps * (cs / ps) := by ring
  have hW : W = 2 ^ 64 := rfl
  by_cases h0 : cs % ps = 0
  · simp only [h0, if_pos, if_true]
    rw [hX, hW]
    rw [hW] at hnof
    omega
  · simp only [h0, if_neg, if_false, ite_false]

/-- C8 (counterexample): the claim quantifies over every configured pool
size; for page size `4096` and configured size `2 ^ 64 - 1` (a valid
`size_t` template argument that is not a page multiple) the computation
`psize * (1 + ONE_MEM_POOL_SIZE / psize)` wraps to `0`, so the realized
capacity is `0` and in particular not a multiple of the page size strictly
greater than the configured size. -/
theorem C8_capacity_overflow_counterexample :
    (W - 1) % 4096 ≠ 0 ∧ CalculateCapacity 4096 (W - 1) = 0 ∧
      ¬ W - 1 < CalculateCapacity 4096 (W - 1) := by decide

/-- C8 (amended): for every page size `ps > 0` and configured pool size
`cs` such that the page-rounded value `ps * (1 + cs / ps)` fits in 64 bits,
the computed capacity is the configured size itself when that is an exact
page multiple, and otherwise the smallest whole multiple of the page size
strictly greater than the configured size. -/
theorem C8_capacity_rounding (ps cs : Nat) (hps : 0 < ps)
    (hnof : ps * (1 + cs / ps) < W) :
    (cs % ps = 0 → CalculateCapacity ps cs = cs) ∧
    (cs % ps ≠ 0 →
      CalculateCapacity ps cs % ps = 0 ∧ cs < CalculateCapacity ps cs ∧
        ∀ k, k % ps = 0 → cs < k → CalculateCapacity ps cs ≤ k) := by
  rw [CalculateCapacity_eq ps cs hps hnof]
  constructor
  · intro h0
    simp [h0]
  · intro h0
    simp only [if_neg h0]
    have hdm := Nat.div_add_mod cs ps
    have hmlt : cs % ps < ps := Nat.mod_lt cs hps
    have hX : ps * (1 + cs / ps) = ps + ps * (cs / ps) := by ring
    refine ⟨by simp [Nat.mul_mod_right], by omega, ?_⟩
    intro k hk hck
    have hkd : ps * (k / ps) = k := Nat.mul_div_cancel' (Nat.dvd_of_mod_eq_zero hk)
    have hqlt : cs / ps < k / ps := by
      rw [Nat.div_lt_iff_lt_mul hps, Nat.mul_comm, hkd]
      exact hck
    calc ps * (1 + cs / ps) ≤ ps * (k / ps) := Nat.mul_le_mul_left ps (by omega)
      _ = k := hkd

/-- C8 (witness): instantiation of the amended rounding theorem at page
size `4096` and configured size `100`. -/
theorem C8_capacity_rounding_witness :
    0 < 4096 ∧ 4096 * (1 + 100 / 4096) < W ∧
      CalculateCapacity 4096 100 % 4096 = 0 ∧ 100 < CalculateCapacity 4096 100 ∧
        CalculateCapacity 4096 100 ≤ 4096 := by
  have h := (C8_capacity_rounding 4096 100 (by decide) (by decide)).2 (by decide)
  exact ⟨by decide, by decide, h.1, h.2.1, h.2.2 4096 (by decide) (by decide)⟩

/-- C10: a pool produced by `CreateNewPool` is a raw `mmap` region on which
the `FreeListMemoryPool` constructor is never executed, so (anonymous
mappings being zero-filled) its `freeListHead_` member reads as null and
`FreeListMemoryPool::Allocate` returns null for every requested size and
every positive amount of loop fuel, leaving memory untouched. -/
theorem C10_fresh_pool_allocate_null (base size fuel : Nat) :
    readWord zeroMem (wadd base 8) = 0 ∧
      FreeListMemoryPool.Allocate zeroMem base size (fuel + 1) = some (zeroMem, 0) :=
  ⟨rfl, rfl⟩

/-- C2: the split comparison in `FreeListMemoryPool::Allocate` is
`if (block->size < size + sizeof(Block))`, which is the opposite of the
claimed condition.  Left half: a block of size `100` serving a request of
`10` leaves `100 - 10 - 16 = 74` bytes — ample room for a new header — yet
no split is performed: the free-list head becomes null (the whole block is
consumed, `next = 0`, recorded size `26`).  Right half: a block of size
`20` serving a request of `10` (leftover would be negative) is the case
the code does split on, carving a bogus free block at `4138` whose `size`
field holds the underflowed value `2 ^ 64 - 6` and linking it in as the
new head. -/
theorem C2_split_condition_inverted :
    (resPtr (FreeListMemoryPool.Allocate mPool100 4096 10 2) = 4128 ∧
      readWord (resMem (FreeListMemoryPool.Allocate mPool100 4096 10 2)) 4104 = 0 ∧
      readWord (resMem (FreeListMemoryPool.Allocate mPool100 4096 10 2)) 4120 = 26) ∧
    (readWord (resMem (FreeListMemoryPool.Allocate mPool20 4096 10 2)) 4104 = 4138 ∧
      readWord (resMem (FreeListMemoryPool.Allocate mPool20 4096 10 2)) 4146 = W - 6) := by
  decide

/-- C3: `FreeListAllocator::Free` advances `pool = pool->nextPool` before
testing, so the head pool is never examined.  With a single-pool chain at
base `4096` (zero-filled memory: `nextPool = 0`) and a pointer `4128` that
the head pool itself would verify (its word reads `0`, the occupied
sentinel, and it lies in the pool's address range), the walk immediately
moves to the null successor and invokes `VerifyPtr` through a null pool
pointer — undefined behaviour, modelled as the fault result `none` — so
the pointer is never freed in the first pool. -/
theorem C3_head_pool_skipped :
    FreeListMemoryPool.VerifyPtr 4096 4096 zeroMem 4096 4128 = true ∧
      FreeListAllocator.Free 4096 4096 3 zeroMem 4096 4128 = none :=
  ⟨rfl, rfl⟩

/-- C4: invalid frees are not safe.  Left: freeing a null pointer on a
single-pool allocator walks past the chain end and calls `VerifyPtr`
through a null pool pointer (undefined behaviour, modelled as `none`).
Right: at the pool layer, freeing the already-free pointer `4112` (the
sole free block, whose `next` is null and therefore indistinguishable from
the occupied sentinel) passes `VerifyPtr` and is pushed again, rewriting
its `next` field from `0` to `4112` — a self-loop, so the pool's internal
state is altered. -/
theorem C4_invalid_free_unsafe :
    FreeListAllocator.Free 4096 4096 3 zeroMem 4096 0 = none ∧
      (readWord mFreeHead 4112 = 0 ∧
        readWord (FreeListMemoryPool.Free 4096 4096 mFreeHead 4096 4112) 4112 = 4112) := by
  exact ⟨rfl, by decide⟩

/-- C5: there is no zero-size check anywhere in
`FreeListAllocator::Allocate`; a request with `count = 0` computes
`size = 0`, runs the pool search, and (on a pool with any free block, here
the size-100 block of `mPool100`) returns the non-null payload pointer
`4128` instead of the claimed immediate null. -/
theorem C5_zero_size_not_rejected :
    resPtr3 (FreeListAllocator.Allocate poolSupply mPool100 4096 0 0 8 2 2) = 4128 := by
  decide

/-- C6: the constructor of `FreeListMemoryPool`, run on a pool at base
`4096` with capacity `4096`, sets the free-list head to `4096 + 256 = 4352`
(the initialiser `this + sizeof(FreeListMemoryPool)` advances by
`16 * 16` bytes) rather than to the start `4112` of the usable region, and
sets the head block's `next` to `4368` (`freeListHead_ + 1`), not null —
so the usable region is not a single null-terminated free block, even
though the head block's `size` is set to the full span `4080`. -/
theorem C6_constructor_list_malformed :
    readWord (FreeListMemoryPool.Ctor 4096 4096 zeroMem 4096) 4104 = 4352 ∧
      readWord (FreeListMemoryPool.Ctor 4096 4096 zeroMem 4096) 4104 ≠ wadd 4096 sizeofPool ∧
      readWord (FreeListMemoryPool.Ctor 4096 4096 zeroMem 4096) 4360 = 4080 ∧
      readWord (FreeListMemoryPool.Ctor 4096 4096 zeroMem 4096) 4352 = 4368 := by
  decide

/-- C7: the round trip fails.  On `mPool100` (single free block of size
`100` with zeroed payload bytes) `Allocate(10)` returns `4128`; freeing
`4128` on the owning pool pushes the block at the payload address with
`next = 0` (the old null head), so `VerifyPtr(4128)` still returns `true`
after the free, where the claim requires `false`. -/
theorem C7_roundtrip_broken :
    resPtr (FreeListMemoryPool.Allocate mPool100 4096 10 2) = 4128 ∧
      FreeListMemoryPool.VerifyPtr 4096 4096
        (FreeListMemoryPool.Free 4096 4096
          (resMem (FreeListMemoryPool.Allocate mPool100 4096 10 2)) 4096 4128)
        4096 4128 = true := by
  decide

theorem readWord_eq_zero (m : Mem) (a : Nat) (h : ∀ i, i < 8 → m (a + i) = 0) :
    readWord m a = 0 := by
  unfold readWord readByte
  have h0 := h 0 (by omega)
  rw [Nat.add_zero] at h0
  rw [h0, h 1 (by omega), h 2 (by omega), h 3 (by omega), h 4 (by omega), h 5 (by omega),
    h 6 (by omega), h 7 (by omega)]

/-- One iteration of the allocator's retry loop when the previous attempt
returned null and the current pool's `nextPool` link is null: a fresh pool
is created at `supply fresh`, linked into the current pool's header, and
tried. -/
theorem AllocateLoop_succ_grow (supply : Nat → Nat) (size pfuel fuel : Nat) (m : Mem)
    (pool fresh : Nat) (hnext : readWord m pool = 0) :
    FreeListAllocator.AllocateLoop supply size pfuel (fuel + 1) m pool fresh 0 =
      match FreeListMemoryPool.Allocate (writeWord m pool (supply fresh)) (supply fresh)
          size pfuel with
      | none => none
      | some (m2, a) =>
          FreeListAllocator.AllocateLoop supply size pfuel fuel m2 (supply fresh) (fresh + 1) a := by
  rw [FreeListAllocator.AllocateLoop, hnext]
  simp

/-- On memory that is zero except possibly inside the `nextPool` link
fields of the pools created so far, every iteration of the allocator's
retry loop finds a zero `freeListHead_` in the next pool, gets null back
from the pool-level `Allocate`, and recurses; the loop therefore consumes
all its fuel without ever returning.  `fresh` pools have been created, the
current pool sits at `4096 * (fresh + 1)`, and the address bound keeps all
pool addresses below `2 ^ 64` so that pointer additions do not wrap. -/
theorem allocateLoop_no_progress (size pfuel : Nat) :
    ∀ (fuel fresh : Nat) (m : Mem),
      4096 * (fresh + fuel + 2) < W →
      (∀ a, (∀ j, j < fresh → ¬ (4096 * (j + 1) ≤ a ∧ a < 4096 * (j + 1) + 8)) → m a = 0) →
      FreeListAllocator.AllocateLoop poolSupply size (pfuel + 1) fuel m
        (4096 * (fresh + 1)) fresh 0 = none := by
  intro fuel
  induction fuel with
  | zero => intro fresh m hb hm; rfl
  | succ fuel ih =>
    intro fresh m hb hm
    have hsucc : 4096 * (fresh + 2) = 4096 * (fresh + 1) + 4096 := by ring
    have hz : ∀ i, i < 8 → m (4096 * (fresh + 1) + i) = 0 := by
      intro i hi
      apply hm
      intro j hj
      rintro ⟨h1, h2⟩
      have hmul : 4096 * (j + 1) + 4096 ≤ 4096 * (fresh + 1) := by
        have h3 := Nat.mul_le_mul_left 4096 (show j + 1 + 1 ≤ fresh + 1 by omega)
        have h4 : 4096 * (j + 1 + 1) = 4096 * (j + 1) + 4096 := by ring
        omega
      omega
    have hread : readWord m (4096 * (fresh + 1)) = 0 := readWord_eq_zero m _ hz
    have hstep : 4096 * (fresh + 2) + 16 < W := by
      have hmul : 4096 * (fresh + 2) + 4096 ≤ 4096 * (fresh + (fuel + 1) + 2) := by
        have h3 := Nat.mul_le_mul_left 4096 (show fresh + 2 + 1 ≤ fresh + (fuel + 1) + 2 by omega)
        have h4 : 4096 * (fresh + 2 + 1) = 4096 * (fresh + 2) + 4096 := by ring
        omega
      omega
    have hQ : poolSupply fresh = 4096 * (fresh + 2) := rfl
    have hflh : readWord (writeWord m (4096 * (fresh + 1)) (poolSupply fresh))
        (wadd (poolSupply fresh) 8) = 0 := by
      have hwa : wadd (poolSupply fresh) 8 = 4096 * (fresh + 2) + 8 := by
        rw [hQ]
        exact Nat.mod_eq_of_lt (by omega)
      rw [hwa, readWord_writeWord_of_disjoint m _ _ _ (by omega)]
      apply readWord_eq_zero
      intro i hi
      apply hm
      intro j hj
      rintro ⟨h1, h2⟩
      have hmul : 4096 * (j + 1) + 4096 ≤ 4096 * (fresh + 1) := by
        have h3 := Nat.mul_le_mul_left 4096 (show j + 1 + 1 ≤ fresh + 1 by omega)
        have h4 : 4096 * (j + 1 + 1) = 4096 * (j + 1) + 4096 := by ring
        omega
      omega
    have hallocate : FreeListMemoryPool.Allocate
        (writeWord m (4096 * (fresh + 1)) (poolSupply fresh)) (poolSupply fresh)
        size (pfuel + 1) =
        some (writeWord m (4096 * (fresh + 1)) (poolSupply fresh), 0) := by
      unfold FreeListMemoryPool.Allocate
      rw [hflh]
      rfl
    have hm1inv : ∀ a,
        (∀ j, j < fresh + 1 → ¬ (4096 * (j + 1) ≤ a ∧ a < 4096 * (j + 1) + 8)) →
        writeWord m (4096 * (fresh + 1)) (poolSupply fresh) a = 0 := by
      intro a ha
      have hout := ha fresh (by omega)
      rw [writeWord_apply_of_notin m _ _ a (by omega)]
      exact hm a (fun j hj => ha j (by omega))
    rw [AllocateLoop_succ_grow poolSupply size (pfuel + 1) fuel m (4096 * (fresh + 1)) fresh hread,
      hallocate]
    exact ih (fresh + 1) (writeWord m (4096 * (fresh + 1)) (poolSupply fresh))
      (by rw [show fresh + 1 + fuel + 2 = fresh + (fuel + 1) + 2 by omega]; exact hb) hm1inv

/-- C1: on the real allocator every pool region comes from `CreateNewPool`
without ever running the pool constructor, so every free list is empty and
`FreeListAllocator::Allocate` never completes: starting from zero-filled
memory with the first pool at `4096`, for every count, element size and
(non-wrapping) amount of retry-loop fuel the call still has not returned —
it keeps creating and linking fresh pools forever instead of terminating
with a pointer or null. -/
theorem C1_allocate_never_completes (count eltSize pfuel fuel : Nat)
    (hb : 4096 * (fuel + 2) < W) :
    FreeListAllocator.Allocate poolSupply zeroMem 4096 0 count eltSize (pfuel + 1) fuel = none := by
  have h := allocateLoop_no_progress (wmul count eltSize) pfuel fuel 0 zeroMem
    (by rw [show 0 + fuel + 2 = fuel + 2 by omega]; exact hb) (fun a _ => rfl)
  rw [show 4096 * (0 + 1) = 4096 by norm_num] at h
  exact h

theorem isChain_ne_zero (m : Mem) :
    ∀ (bs : List Nat) (h : Nat), isChain m h bs = true → ∀ a ∈ bs, a ≠ 0 := by
  intro bs
  induction bs with
  | nil =>
    intro h hch a ha
    simp at ha
  | cons b rest ih =>
    intro h hch a ha
    simp only [isChain, Bool.and_eq_true, beq_iff_eq, decide_eq_true_eq] at hch
    obtain ⟨⟨hhb, hbne⟩, hrest⟩ := hch
    rcases List.mem_cons.mp ha with rfl | ha2
    · exact hbne
    · exact ih (readWord m b) hrest a ha2

/-- The free-list walk of `FreeListMemoryPool::Allocate`, run with fuel one
more than the chain length, stops at the first listed block whose size
plus the header size is at least the request (the source's loop condition
`block->size + sizeof(Block) < size` negated), or at the null terminator
when no block fits. -/
theorem findFitLoop_first_fit (m : Mem) (req : Nat) :
    ∀ (bs : List Nat) (h prev : Nat),
      isChain m h bs = true →
      (∀ a ∈ bs, readWord m (wadd a 8) + sizeofBlock < W) →
      ∃ p, FreeListMemoryPool.FindFitLoop m req (bs.length + 1) prev h =
        some (p, (bs.find? (fitsReq m req)).getD 0) := by
  intro bs
  induction bs with
  | nil =>
    intro h prev hch hnw
    simp only [isChain, beq_iff_eq] at hch
    subst hch
    exact ⟨prev, rfl⟩
  | cons a rest ih =>
    intro h prev hch hnw
    simp only [isChain, Bool.and_eq_true, beq_iff_eq, decide_eq_true_eq] at hch
    obtain ⟨⟨hha, hane⟩, hrest⟩ := hch
    subst hha
    have hs : readWord m (wadd h 8) + sizeofBlock < W := hnw h (List.mem_cons_self h rest)
    have hw : wadd (readWord m (wadd h 8)) sizeofBlock = readWord m (wadd h 8) + sizeofBlock :=
      Nat.mod_eq_of_lt hs
    by_cases hfit : req ≤ readWord m (wadd h 8) + sizeofBlock
    · refine ⟨prev, ?_⟩
      rw [List.find?_cons_of_pos _ (by simpa [fitsReq] using hfit)]
      show FreeListMemoryPool.FindFitLoop m req (rest.length + 1 + 1) prev h =
        some (prev, (some h).getD 0)
      rw [FreeListMemoryPool.FindFitLoop, if_neg hane, hw, if_neg (by omega)]
      rfl
    · obtain ⟨p, hp⟩ := ih (readWord m h) h hrest (fun b hb => hnw b (List.mem_cons_of_mem h hb))
      refine ⟨p, ?_⟩
      rw [List.find?_cons_of_neg _ (by simpa [fitsReq] using hfit)]
      show FreeListMemoryPool.FindFitLoop m req (rest.length + 1 + 1) prev h =
        some (p, (rest.find? (fitsReq m req)).getD 0)
      rw [FreeListMemoryPool.FindFitLoop, if_neg hane, hw, if_pos (by omega)]
      exact hp

/-- C9: `FreeListMemoryPool::Allocate` performs a first-fit walk of the
free list from the pool's head.  For any memory whose head forms a valid
null-terminated chain `bs` (with non-wrapping block sizes), if some listed
block fits — size plus header size at least the request — then the first
such block `a` in list order is selected and the returned payload pointer
is `a + sizeof(Block)`, immediately after its header; if no block fits,
the walk exhausts the list and the pool returns null without touching
memory. -/
theorem C9_pool_allocate_first_fit (m : Mem) (base req : Nat) (bs : List Nat)
    (hch : isChain m (readWord m (wadd base 8)) bs = true)
    (hnw : ∀ a ∈ bs, readWord m (wadd a 8) + sizeofBlock < W) :
    (∀ a, bs.find? (fitsReq m req) = some a →
      ∃ m1, FreeListMemoryPool.Allocate m base req (bs.length + 1) =
        some (m1, wadd a sizeofBlock)) ∧
    (bs.find? (fitsReq m req) = none →
      FreeListMemoryPool.Allocate m base req (bs.length + 1) = some (m, 0)) := by
  obtain ⟨p, hp⟩ := findFitLoop_first_fit m req bs (readWord m (wadd base 8)) 0 hch hnw
  constructor
  · intro a hfind
    have hane : a ≠ 0 := isChain_ne_zero m bs _ hch a (List.mem_of_find?_eq_some hfind)
    rw [hfind] at hp
    simp only [Option.getD_some] at hp
    unfold FreeListMemoryPool.Allocate
    rw [hp]
    simp only [if_neg hane]
    exact ⟨_, rfl⟩
  · intro hfind
    rw [hfind] at hp
    unfold FreeListMemoryPool.Allocate
    rw [hp]
    rfl

/-- C9 (witness): on `mPool100` the chain is the single block `4112` of
size `100`; a request of `10` fits it and the returned pointer is
`4112 + 16 = 4128`. -/
theorem C9_pool_allocate_first_fit_witness :
    isChain mPool100 (readWord mPool100 (wadd 4096 8)) [4112] = true ∧
      ∃ m1, FreeListMemoryPool.Allocate mPool100 4096 10 2 = some (m1, 4128) := by
  refine ⟨by decide, ?_⟩
  have h := (C9_pool_allocate_first_fit mPool100 4096 10 [4112] (by decide) (by decide)).1
    4112 (by decide)
  exact h

/-- C1 (witness): instantiation at one unit of element size, three loop
iterations. -/
theorem C1_allocate_never_completes_witness :
    4096 * (3 + 2) < W ∧
      FreeListAllocator.Allocate poolSupply zeroMem 4096 0 1 1 1 3 = none :=
  ⟨by decide, C1_allocate_never_completes 1 1 0 3 (by decide)⟩

end FreeListAlloc
